import Mathlib

/-!
Verification development for the YouTube batch downloader
(`fiftyone/utils/youtube.py`).

The Python source is shallowly embedded here:

* pure functions become Lean functions;
* the external stream provider (pytube) is a read-only structure of data
  (`Provider`, `YTStream`), and the transfer and clip primitives are assumed
  to succeed (their failures enter through the executor parameter of the
  orchestrator, which is an arbitrary function `Task -> DLResult`);
* Python exceptions are an `Except` channel (`PyErr`); a caught exception is
  a returned error string, an uncaught one an `Except.error`;
* the dynamically typed variable `ext` inside `_do_download`/`_get_stream`
  (which can hold `None`, a string, or - after line 284 - a 2-tuple from
  `os.path.splitext`) becomes the sum type `PyExt`;
* Python float clip bounds become `Rat` (only order comparisons are used);
* `pool.imap_unordered` yields the tasks in a nondeterministic completion
  order, modelled as an explicit permutation parameter of `_download_multi`.
-/

namespace YT

/-- A value the Python variable `ext` can hold: `None`, a string such as
".mp4", or the 2-tuple `(root, ext)` that line 284
(`ext = os.path.splitext(video_path)`) assigns to it. -/
inductive PyExt where
  | noneE : PyExt
  | strE (s : String) : PyExt
  | pairE (root tail : String) : PyExt
deriving DecidableEq

/-- A Python exception escaping an expression of the embedded code. -/
inductive PyErr where
  | typeError : PyErr
  | valueError (msg : String) : PyErr
  | outOfFuel : PyErr
deriving DecidableEq

/-- The message `str(e)` of an exception, as the `except` clause of
`_do_download` stores it. -/
def pyErrMsg : PyErr → String
  | PyErr.typeError => "TypeError: \x27NoneType\x27 object is not subscriptable"
  | PyErr.valueError m => m
  | PyErr.outOfFuel => "out of fuel"

/-- Truthiness of an optional error string, for Python `if error:`. -/
def pyTruthy : Option String → Bool
  | Option.none => false
  | some s => !s.isEmpty

/-- A pytube stream descriptor: `s.type` ("video"/"audio"), whether audio and
video are muxed (`s.is_progressive`), the container subtype (e.g. "mp4"), the
integer resolution (pytube reports a string such as "720p" and `_get_stream`
parses `int(s.resolution[:-1])`; the embedding carries the integer), and
`s.default_filename`. -/
structure YTStream where
  streamType : String
  progressive : Bool
  subtype : String
  resolution : Nat
  defaultFilename : String
deriving DecidableEq

/-- The slice `ext[1:]`: on a string it drops the first character, on the
2-tuple `(root, tail)` it is the 1-tuple `(tail,)`, and on `None` it raises
`TypeError`. -/
inductive SliceVal where
  | strV (s : String) : SliceVal
  | tupleV (l : List String) : SliceVal
deriving DecidableEq

def extSlice : PyExt → Except PyErr SliceVal
  | PyExt.noneE => Except.error PyErr.typeError
  | PyExt.strE s => Except.ok (SliceVal.strV (s.drop 1))
  | PyExt.pairE _ b => Except.ok (SliceVal.tupleV [b])

/-- pytube `filter(file_extension=v)` compares `s.subtype == v`; a string
never equals a tuple in Python. -/
def matchesExt (subtype : String) : SliceVal → Bool
  | SliceVal.strV s => subtype == s
  | SliceVal.tupleV _ => false

/-- pytube `streams.filter(type="video", progressive=progressive,
file_extension=...)`. pytube treats `progressive` as a truthy flag: with
`progressive=False` no progressiveness constraint is applied at all. -/
def filterStreams (streams : List YTStream) (progressive : Bool) (sl : SliceVal) :
    List YTStream :=
  streams.filter (fun s =>
    s.streamType == "video" && (!progressive || s.progressive) &&
      matchesExt s.subtype sl)

/-- The resolution argument after `_build_tasks_list` has parsed it: an
integer target (for which `etau.is_numeric` is true) or the original string. -/
inductive ResPolicy where
  | num (n : Int) : ResPolicy
  | str (s : String) : ResPolicy
deriving DecidableEq

/-- First index of the minimum of a list of naturals (`np.argmin` returns the
first occurrence of the minimum; on an empty array it raises, a case the
caller never reaches and that the embedding maps to 0). -/
def argminList : List Nat → Nat
  | [] => 0
  | x :: xs =>
    if xs = [] then 0
    else if x ≤ xs.getD (argminList xs) 0 then 0 else argminList xs + 1

/-- `_find_nearest(array, target) = np.argmin(np.abs(np.asarray(array) - target))`. -/
def findNearest (arr : List Int) (target : Int) : Nat :=
  argminList (arr.map (fun x => (x - target).natAbs))

/-- Stable ascending insertion by resolution; extensionally identical to the
stable ascending numeric sort pytube performs for `order_by("resolution")`. -/
def insertByRes (s : YTStream) : List YTStream → List YTStream
  | [] => [s]
  | t :: ts => if s.resolution < t.resolution then s :: t :: ts
               else t :: insertByRes s ts

def orderByRes : List YTStream → List YTStream
  | [] => []
  | s :: ss => insertByRes s (orderByRes ss)

/-- The body of `_get_stream` once `streams` is non-empty (lines 360-369):
an integer target indexes by `_find_nearest`; `"lowest"` takes
`order_by("resolution").first()`; anything else (`"highest"`) takes
`order_by("resolution").desc().first()`. -/
def pickStream (ss : List YTStream) (resolution : ResPolicy) : Option YTStream :=
  match resolution with
  | ResPolicy.num t =>
    ss.get? (findNearest (ss.map (fun s => (s.resolution : Int))) t)
  | ResPolicy.str r =>
    if r == "lowest" then (orderByRes ss).head?
    else ((orderByRes ss).reverse).head?

/-- The `while True` loop of `_get_stream` with fuel. The loop state is
`(progressive, ext)` and moves `(True, e) -> (False, e) -> (False, None)`,
so three iterations always suffice; fuel 4 is never exhausted. -/
def getStreamLoop (streams : List YTStream) (resolution : ResPolicy) :
    Nat → Bool → PyExt → Except PyErr (Option YTStream)
  | 0, _, _ => Except.error PyErr.outOfFuel
  | Nat.succ fuel, progressive, ext =>
    match extSlice ext with
    | Except.error e => Except.error e
    | Except.ok sl =>
      let ss := filterStreams streams progressive sl
      if ss.isEmpty then
        if progressive then getStreamLoop streams resolution fuel false ext
        else
          match ext with
          | PyExt.noneE => Except.ok Option.none
          | _ => getStreamLoop streams resolution fuel false PyExt.noneE
      else Except.ok (pickStream ss resolution)

/-- `_get_stream(pytube_video, ext, resolution)` (lines 347-376). -/
def getStream (streams : List YTStream) (ext : PyExt) (resolution : ResPolicy) :
    Except PyErr (Option YTStream) :=
  let ext := match ext with
    | PyExt.noneE => PyExt.strE ".mp4"
    | e => e
  getStreamLoop streams resolution 4 true ext

/-- The `messages` value returned by `pytube.extract.playability_status`:
`None`, a bare string, or a list of strings. -/
inductive PyMsgs where
  | noneM : PyMsgs
  | strM (s : String) : PyMsgs
  | listM (l : List String) : PyMsgs
deriving DecidableEq

/-- `_is_playable` (lines 330-344). -/
def isPlayable (status : Option String) (messages : PyMsgs) : Option String :=
  match status with
  | Option.none => Option.none
  | some st =>
    match messages with
    | PyMsgs.noneM => Option.none
    | PyMsgs.strM s => some s
    | PyMsgs.listM [] => some st
    | PyMsgs.listM (m :: _) => some m

/-- What `pytube.YouTube(url)` resolves for one URL: the playability status
and messages, and the available streams. -/
structure Provider where
  playStatus : Option String
  playMessages : PyMsgs
  streams : List YTStream
deriving DecidableEq

/-- Python `str.startswith`, computed on the character list. -/
def strStartsWith (s stem : String) : Bool :=
  s.toList.take stem.toList.length == stem.toList

/-- Python `str.endswith`, computed on the character list. -/
def strEndsWith (s tail : String) : Bool :=
  decide (tail.toList.length ≤ s.toList.length) &&
    s.toList.drop (s.toList.length - tail.toList.length) == tail.toList

/-- Python `int(s)` on a decimal string: the optional sign, then one or more
digits (whitespace and underscores, which Python also accepts, are not
exercised by this code). -/
def natOfDigitsGo (acc : Nat) : List Char → Option Nat
  | [] => some acc
  | c :: cs => if c.isDigit then natOfDigitsGo (acc * 10 + (c.toNat - 48)) cs
               else Option.none

def strToInt? (s : String) : Option Int :=
  match s.toList with
  | [] => Option.none
  | '-' :: cs =>
    if cs.isEmpty then Option.none
    else (natOfDigitsGo 0 cs).map (fun n => -(n : Int))
  | cs => (natOfDigitsGo 0 cs).map (fun n => (n : Int))

/-- Last index of a character in a list of characters, Python `str.rfind`
(-1 when absent). -/
def rfind (cs : List Char) (c : Char) : Int :=
  match cs.reverse.findIdx? (fun x => x == c) with
  | Option.none => -1
  | some i => (cs.length : Int) - 1 - (i : Int)

/-- `os.path.splitext` (posix): split at the last dot when it lies after the
last separator and the base name has a non-dot character before that dot
(leading dots of the base name do not start an extension). -/
def splitext (p : String) : String × String :=
  let cs := p.toList
  let sepIdx := rfind cs '/'
  let dotIdx := rfind cs '.'
  if sepIdx < dotIdx then
    let between := (cs.take dotIdx.toNat).drop (sepIdx + 1).toNat
    if between.any (fun ch => !(ch == '.')) then
      (String.mk (cs.take dotIdx.toNat), String.mk (cs.drop dotIdx.toNat))
    else (p, "")
  else (p, "")

/-- `os.path.join` for one component (posix). -/
def pathJoin (a b : String) : String :=
  if strStartsWith b "/" then b
  else if a == "" then b
  else if strEndsWith a "/" then a ++ b
  else a ++ "/" ++ b

/-- Python tuple unpacking `root, ext = s` of a STRING `s`: it succeeds only
when the string has exactly two characters and otherwise raises ValueError. -/
def unpack2 (s : String) : Except PyErr (String × String) :=
  match s.toList with
  | [a, b] => Except.ok (String.mk [a], String.mk [b])
  | _ => Except.error (PyErr.valueError "ValueError: wrong number of values to unpack (expected 2)")

/-- A clip segment argument: `None`, or a `(start, end)` pair of optional
seconds. -/
abbrev Clip := Option (Option Rat × Option Rat)

/-- A fully built task tuple, as `_build_tasks_list` zips it. -/
structure Task where
  idx : Nat
  url : String
  downloadDir : Option String
  videoPath : Option String
  clipSegment : Clip
  tmpDir : String
  ext : Option String
  resolution : ResPolicy
deriving DecidableEq

/-- The 4-tuple `_do_download` returns: `(idx, url, video_path|None,
error|None)`. -/
structure DLResult where
  idx : Nat
  url : String
  videoPath : Option String
  err : Option String
deriving DecidableEq

/-- The body of `_do_download` inside its `try:` (lines 276-320).
`Except.error` is an exception reaching the `except` clause; `Except.ok` an
explicit `return`. The transfer and clip primitives are assumed to succeed. -/
def doDownloadTry (pv : Provider) (task : Task) : Except PyErr DLResult :=
  match isPlayable pv.playStatus pv.playMessages with
  | errOpt =>
    if pyTruthy errOpt then Except.ok ⟨task.idx, task.url, Option.none, errOpt⟩
    else
      let ext0 : PyExt := match task.ext with
        | Option.none => PyExt.noneE
        | some s => PyExt.strE s
      -- line 283-284: `if video_path is not None and ext is None:
      --   ext = os.path.splitext(video_path)` assigns the WHOLE tuple.
      let ext1 : PyExt :=
        if task.videoPath.isSome && (ext0 == PyExt.noneE) then
          PyExt.pairE (splitext (task.videoPath.getD "")).fst
            (splitext (task.videoPath.getD "")).snd
        else ext0
      match getStream pv.streams ext1 task.resolution with
      | Except.error e => Except.error e
      | Except.ok Option.none =>
        Except.ok ⟨task.idx, task.url, Option.none, some "No stream found"⟩
      | Except.ok (some stream) =>
        let vpE : Except PyErr String :=
          match task.videoPath with
          | some p => Except.ok p
          | Option.none =>
            -- line 290-295: synthesize `download_dir/<filename>`; the string
            -- concatenation `splitext(filename)[0] + ext` raises TypeError
            -- when `ext` is a tuple, and `os.path.join(None, ...)` raises
            -- TypeError when `download_dir` is None.
            match ext1 with
            | PyExt.pairE _ _ => Except.error PyErr.typeError
            | PyExt.noneE =>
              match task.downloadDir with
              | some dir => Except.ok (pathJoin dir stream.defaultFilename)
              | Option.none => Except.error PyErr.typeError
            | PyExt.strE s =>
              match task.downloadDir with
              | some dir =>
                Except.ok (pathJoin dir ((splitext stream.defaultFilename).fst ++ s))
              | Option.none => Except.error PyErr.typeError
        match vpE with
        | Except.error e => Except.error e
        | Except.ok videoPath =>
          -- line 297: `root, ext = os.path.splitext(video_path)[1]` unpacks
          -- the EXTENSION STRING into two variables.
          match unpack2 (splitext videoPath).snd with
          | Except.error e => Except.error e
          | Except.ok (root, extC) =>
            let streamExt := (splitext stream.defaultFilename).snd
            let videoPath := if extC ≠ streamExt then root ++ streamExt else videoPath
            Except.ok ⟨task.idx, task.url, some videoPath, Option.none⟩

/-- `_do_download(task)` (lines 264-327): resolve the provider, run the body,
and turn an uncaught exception into a per-item error string. A URL the
provider cannot resolve models `pytube.YouTube(url)` raising. -/
def doDownload (provider : String → Option Provider) (task : Task) : DLResult :=
  match provider task.url with
  | Option.none => ⟨task.idx, task.url, Option.none, some "PytubeError"⟩
  | some pv =>
    match doDownloadTry pv task with
    | Except.ok r => r
    | Except.error e => ⟨task.idx, task.url, Option.none, some (pyErrMsg e)⟩

/-- Python dict assignment `d[k] = v` on a dict represented as its insertion-
ordered association list: update in place when the key exists, append
otherwise. -/
def dictInsert (d : List (Nat × String)) (k : Nat) (v : String) :
    List (Nat × String) :=
  if d.any (fun p => p.fst == k) then
    d.map (fun p => if p.fst == k then (k, v) else p)
  else d ++ [(k, v)]

/-- Key list of such a dict. -/
def keysOf (d : List (Nat × String)) : List Nat := d.map Prod.fst

/-- The ValueError message `_download`/`_download_multi` raise when
`skip_failures` is false. -/
def failMsg (r : DLResult) : String :=
  "Failed to download video \x27" ++ r.url ++ "\x27\nError: " ++ r.err.getD ""

/-- The collection loop shared verbatim by `_download` (lines 212-226) and
`_download_multi` (lines 244-259): on an error either raise (skipFailures
false) or record it; on a success record the path and return as soon as
`len(downloaded) >= max_videos`. -/
def downloadLoop (exec : Task → DLResult) (maxVideos : Nat) (skipFailures : Bool) :
    List Task → List (Nat × String) → List (Nat × String) →
    Except String (List (Nat × String) × List (Nat × String))
  | [], downloaded, errors => Except.ok (downloaded, errors)
  | task :: rest, downloaded, errors =>
    if pyTruthy (exec task).err then
      if !skipFailures then Except.error (failMsg (exec task))
      else
        downloadLoop exec maxVideos skipFailures rest downloaded
          (dictInsert errors (exec task).idx ((exec task).err.getD ""))
    else
      if maxVideos ≤
          (dictInsert downloaded (exec task).idx ((exec task).videoPath.getD "")).length then
        Except.ok
          (dictInsert downloaded (exec task).idx ((exec task).videoPath.getD ""), errors)
      else
        downloadLoop exec maxVideos skipFailures rest
          (dictInsert downloaded (exec task).idx ((exec task).videoPath.getD "")) errors

/-- `_download(tasks, max_videos, skip_failures)` (lines 207-228): the tasks
are consumed strictly in the order of the list. -/
def download (exec : Task → DLResult) (tasks : List Task) (maxVideos : Nat)
    (skipFailures : Bool) :
    Except String (List (Nat × String) × List (Nat × String)) :=
  downloadLoop exec maxVideos skipFailures tasks [] []

/-- `_download_multi` (lines 231-261): `pool.imap_unordered(_do_download,
tasks)` delivers the same per-task results in a nondeterministic completion
order; `completionOrder` is that order (a permutation of the task list), and
the consuming loop is the one `downloadLoop` embeds. -/
def downloadMulti (exec : Task → DLResult) (completionOrder : List Task)
    (maxVideos : Nat) (skipFailures : Bool) :
    Except String (List (Nat × String) × List (Nat × String)) :=
  downloadLoop exec maxVideos skipFailures completionOrder [] []

/-- `_parse_num_workers(num_workers, use_threads)` (lines 137-145), with the
ambient `os.name` and `multiprocessing.cpu_count()` passed explicitly. -/
def parseNumWorkers (numWorkers : Option Nat) (useThreads : Bool)
    (osName : String) (cpuCount : Nat) : Nat :=
  match numWorkers with
  | Option.none => if osName == "nt" && !useThreads then 1 else cpuCount
  | some n => n

/-- A run-level argument that is either a scalar (broadcast) or a sequence,
distinguished by `etau.is_container`. -/
inductive Param (α : Type) where
  | one (a : α) : Param α
  | many (l : List α) : Param α
deriving DecidableEq

/-- `_to_list(arg, n)` (lines 203-204). -/
def paramToList {α : Type} : Param α → Nat → List α
  | Param.one a, n => List.replicate n a
  | Param.many l, _ => l

/-- Whether a clip start requests the start of the video:
`clip_segment[0] is None or clip_segment[0] <= 0`. -/
def startsWhole : Option Rat → Bool
  | Option.none => true
  | some s => decide (s ≤ 0)

/-- The per-segment normalization of lines 176-182: a non-None segment whose
start is absent or nonpositive and whose end is absent becomes None. -/
def normalizeClip : Clip → Clip
  | Option.none => Option.none
  | some (st, en) =>
    if startsWhole st && en.isNone then Option.none else some (st, en)

/-- `parseResolution` embeds lines 158-168: the argument must be the string
"highest", "lowest" or one ending in "p"; the latter is parsed with `int`,
which raises on a non-numeric prefix. -/
def parseResolution (r : String) : Except String ResPolicy :=
  if !(r == "highest" || r == "lowest") && !(strEndsWith r "p") then
    Except.error ("Invalid resolution=" ++ r)
  else if strEndsWith r "p" then
    match strToInt? (String.mk (r.toList.dropLast)) with
    | some n => Except.ok (ResPolicy.num n)
    | Option.none =>
      Except.error ("invalid literal for int() with base 10: " ++ String.mk (r.toList.dropLast))
  else Except.ok (ResPolicy.str r)

/-- The 8-ary `zip` of line 189-200: Python `zip` truncates every column at
the shortest list. -/
def zipTasks : List Nat → List String → List (Option String) → List (Option String) →
    List Clip → List String → List (Option String) → List ResPolicy → List Task
  | i :: is, u :: us, d :: ds, v :: vs, c :: cs, t :: ts, e :: es, r :: rs =>
    { idx := i, url := u, downloadDir := d, videoPath := v, clipSegment := c,
      tmpDir := t, ext := e, resolution := r } :: zipTasks is us ds vs cs ts es rs
  | _, _, _, _, _, _, _, _ => []

/-- `_build_tasks_list` (lines 148-200). The in-place normalization loop over
`clip_segments` is the map of `normalizeClip`; dropping `ext` when
`video_paths` is given (line 154-156) only logs a warning, which the
embedding does not carry. -/
def buildTasksList (urls : List String) (downloadDir : Param (Option String))
    (videoPaths : Param (Option String)) (clipSegments : Option (List Clip))
    (tmpDir : String) (ext : Param (Option String)) (resolution : String) :
    Except String (List Task) :=
  if videoPaths = Param.one Option.none ∧ downloadDir = Param.one Option.none then
    Except.error "Either `download_dir` or `video_paths` are required"
  else
    match parseResolution resolution with
    | Except.error e => Except.error e
    | Except.ok resPol =>
      Except.ok (zipTasks (List.range urls.length) urls
        (paramToList downloadDir urls.length)
        (paramToList videoPaths urls.length)
        (match clipSegments with
         | Option.none => List.replicate urls.length Option.none
         | some l => l.map normalizeClip)
        (List.replicate urls.length tmpDir)
        (paramToList
          (if videoPaths ≠ Param.one Option.none ∧ ext ≠ Param.one Option.none
           then Param.one Option.none else ext) urls.length)
        (List.replicate urls.length resPol))

/-- `download_youtube_videos` (lines 28-134): `use_threads` is whether no clip
segments were given, `max_videos` defaults to `len(urls)`, and the branch on
`num_workers <= 1` chooses the sequential or the pooled loop. The scratch
directory and the completion order of the pool are passed explicitly. -/
def downloadYoutubeVideos (exec : Task → DLResult)
    (completionOrder : List Task → List Task) (osName : String) (cpuCount : Nat)
    (tmpDir : String) (urls : List String)
    (downloadDir videoPaths : Param (Option String))
    (clipSegments : Option (List Clip)) (ext : Param (Option String))
    (resolution : String) (maxVideos : Option Nat) (numWorkers : Option Nat)
    (skipFailures : Bool) :
    Except String (List (Nat × String) × List (Nat × String)) :=
  let useThreads := clipSegments.isNone
  let nw := parseNumWorkers numWorkers useThreads osName cpuCount
  let mv := maxVideos.getD urls.length
  match buildTasksList urls downloadDir videoPaths clipSegments tmpDir ext resolution with
  | Except.error e => Except.error e
  | Except.ok tasks =>
    if nw ≤ 1 then download exec tasks mv skipFailures
    else downloadMulti exec (completionOrder tasks) mv skipFailures

instance {ε α : Type} [DecidableEq ε] [DecidableEq α] : DecidableEq (Except ε α) :=
  fun x y =>
    match x, y with
    | Except.ok a, Except.ok b =>
      if h : a = b then Decidable.isTrue (by subst h; rfl)
      else Decidable.isFalse (fun hc => h (Except.ok.inj hc))
    | Except.error a, Except.error b =>
      if h : a = b then Decidable.isTrue (by subst h; rfl)
      else Decidable.isFalse (fun hc => h (Except.error.inj hc))
    | Except.ok _, Except.error _ => Decidable.isFalse (fun hc => Except.noConfusion hc)
    | Except.error _, Except.ok _ => Decidable.isFalse (fun hc => Except.noConfusion hc)

/-! Concrete fixtures for witnesses and counterexamples. -/

/-- A progressive webm 720p video stream. -/
def webmStream : YTStream :=
  { streamType := "video", progressive := true, subtype := "webm",
    resolution := 720, defaultFilename := "Title.webm" }

/-- A progressive mp4 720p video stream. -/
def mp4Stream : YTStream :=
  { streamType := "video", progressive := true, subtype := "mp4",
    resolution := 720, defaultFilename := "Title.mp4" }

/-- A playable provider exposing exactly one progressive mp4 stream. -/
def mp4Provider : Provider :=
  { playStatus := Option.none, playMessages := PyMsgs.noneM, streams := [mp4Stream] }

def mkStreamRes (n : Nat) : YTStream :=
  { streamType := "video", progressive := true, subtype := "mp4",
    resolution := n, defaultFilename := "Title.mp4" }

/-- A plain task used by witnesses. -/
def mkSimpleTask (i : Nat) : Task :=
  { idx := i, url := "u", downloadDir := some "/d", videoPath := Option.none,
    clipSegment := Option.none, tmpDir := "/t", ext := Option.none,
    resolution := ResPolicy.str "highest" }

/-- An executor for which every task succeeds. -/
def execAllOk : Task → DLResult :=
  fun t => ⟨t.idx, t.url, some "/v.mp4", Option.none⟩

/-- An executor failing exactly on the task with index 1. -/
def execFail1 : Task → DLResult :=
  fun t => if t.idx == 1 then ⟨t.idx, t.url, Option.none, some "boom"⟩
           else ⟨t.idx, t.url, some "/v.mp4", Option.none⟩

/-- An executor failing exactly on the tasks with indexes 1 and 3, for runs
with several failures. -/
def execFail13 : Task → DLResult :=
  fun t => if t.idx == 1 || t.idx == 3 then ⟨t.idx, t.url, Option.none, some "boom"⟩
           else ⟨t.idx, t.url, some "/v.mp4", Option.none⟩

/-- A task with an explicit path `video.mov` (so `video_paths` was used and
the builder left `ext` as None). -/
def taskMov : Task :=
  { idx := 0, url := "u", downloadDir := Option.none, videoPath := some "video.mov",
    clipSegment := Option.none, tmpDir := "/t", ext := Option.none,
    resolution := ResPolicy.str "highest" }

/-- A task downloading into a directory with the matching extension ".mp4". -/
def taskDirMp4 : Task :=
  { idx := 0, url := "u", downloadDir := some "/dl", videoPath := Option.none,
    clipSegment := Option.none, tmpDir := "/t", ext := some ".mp4",
    resolution := ResPolicy.str "highest" }

/-- The one task `_build_tasks_list` produces for three urls and a single
explicit video path. -/
def c9Task : Task :=
  { idx := 0, url := "a", downloadDir := some "/d", videoPath := some "/p0.mp4",
    clipSegment := Option.none, tmpDir := "/t", ext := Option.none,
    resolution := ResPolicy.str "highest" }

def c4TaskA : Task :=
  { idx := 0, url := "a", downloadDir := some "/d", videoPath := Option.none,
    clipSegment := Option.none, tmpDir := "/t", ext := Option.none,
    resolution := ResPolicy.str "highest" }

def c4TaskB : Task :=
  { idx := 1, url := "b", downloadDir := some "/d", videoPath := Option.none,
    clipSegment := Option.none, tmpDir := "/t", ext := Option.none,
    resolution := ResPolicy.str "highest" }

/-! Helper lemmas about the dict embedding. -/

theorem dictInsert_length_le (d : List (Nat × String)) (k : Nat) (v : String) :
    (dictInsert d k v).length ≤ d.length + 1 := by
  unfold dictInsert
  split
  · simp
  · simp

theorem length_le_dictInsert (d : List (Nat × String)) (k : Nat) (v : String) :
    d.length ≤ (dictInsert d k v).length := by
  unfold dictInsert
  split
  · simp
  · simp

theorem keysOf_dictInsert (d : List (Nat × String)) (k : Nat) (v : String) :
    keysOf (dictInsert d k v) =
      if d.any (fun p => p.fst == k) then keysOf d else keysOf d ++ [k] := by
  unfold dictInsert keysOf
  split
  · simp only [List.map_map]
    refine List.map_congr_left ?_
    intro p _
    by_cases h : p.fst = k
    · simp [h]
    · simp [h]
  · simp

theorem mem_keysOf_dictInsert {a : Nat} {d : List (Nat × String)} {k : Nat} {v : String} :
    a ∈ keysOf (dictInsert d k v) ↔ a = k ∨ a ∈ keysOf d := by
  rw [keysOf_dictInsert]
  split
  · rename_i h
    have hk : k ∈ keysOf d := by
      rcases List.any_eq_true.mp h with ⟨p, hp, he⟩
      exact List.mem_map.mpr ⟨p, hp, by simpa using he⟩
    constructor
    · intro ha
      exact Or.inr ha
    · rintro (rfl | ha)
      · exact hk
      · exact ha
  · simp [keysOf, or_comm]

theorem mem_keysOf_dictInsert_self (d : List (Nat × String)) (k : Nat) (v : String) :
    k ∈ keysOf (dictInsert d k v) :=
  mem_keysOf_dictInsert.mpr (Or.inl rfl)

theorem keysOf_subset_dictInsert {a : Nat} (d : List (Nat × String)) (k : Nat) (v : String)
    (h : a ∈ keysOf d) : a ∈ keysOf (dictInsert d k v) :=
  mem_keysOf_dictInsert.mpr (Or.inr h)

/-! Helper lemmas about the first-minimum index. -/

theorem argminList_lt_length (l : List Nat) (h : l ≠ []) : argminList l < l.length := by
  induction l with
  | nil => exact absurd rfl h
  | cons x xs ih =>
    rw [argminList]
    split
    · simp
    · rename_i hxs
      split
      · simp
      · have := ih hxs
        simp only [List.length_cons]
        omega

theorem argminList_min (l : List Nat) :
    ∀ i, i < l.length → l.getD (argminList l) 0 ≤ l.getD i 0 := by
  induction l with
  | nil => intro i hi; simp at hi
  | cons x xs ih =>
    intro i hi
    rw [argminList]
    split
    · rename_i hxs
      subst hxs
      have h0 : i = 0 := by simp at hi; omega
      subst h0
      simp
    · rename_i hxs
      split
      · rename_i hle
        match i with
        | 0 => simp
        | Nat.succ j =>
          simp only [List.getD_cons_zero, List.getD_cons_succ]
          have hj : j < xs.length := by simpa using hi
          exact le_trans hle (ih j hj)
      · rename_i hgt
        push_neg at hgt
        simp only [List.getD_cons_succ]
        match i with
        | 0 => simp only [List.getD_cons_zero]; omega
        | Nat.succ j =>
          simp only [List.getD_cons_succ]
          have hj : j < xs.length := by simpa using hi
          exact ih j hj

theorem argminList_first (l : List Nat) :
    ∀ i, i < argminList l → l.getD (argminList l) 0 < l.getD i 0 := by
  induction l with
  | nil =>
    intro i hi
    have h0 : argminList ([] : List Nat) = 0 := rfl
    rw [h0] at hi
    omega
  | cons x xs ih =>
    intro i hi
    rw [argminList] at hi ⊢
    split at hi
    · omega
    · split at hi
      · omega
      · rename_i hxs hgt
        rw [if_neg hxs, if_neg hgt]
        push_neg at hgt
        match i with
        | 0 =>
          simp only [List.getD_cons_succ, List.getD_cons_zero]
          exact hgt
        | Nat.succ j =>
          simp only [List.getD_cons_succ]
          exact ih j (by omega)

theorem getD_map_natAbs (f : Int → Nat) (rs : List Int) :
    ∀ i, i < rs.length → (rs.map f).getD i 0 = f (rs.getD i 0) := by
  induction rs with
  | nil => intro i hi; simp at hi
  | cons x xs ih =>
    intro i hi
    match i with
    | 0 => simp
    | Nat.succ j =>
      simp only [List.map_cons, List.getD_cons_succ]
      exact ih j (by simpa using hi)

/-! Helper lemmas about the collection loop. -/

theorem downloadLoop_bound (exec : Task → DLResult) (q : Nat) (skip : Bool) :
    ∀ (L : List Task) (dl er d e : List (Nat × String)),
      downloadLoop exec q skip L dl er = Except.ok (d, e) → dl.length < q →
      d.length ≤ q := by
  intro L
  induction L with
  | nil =>
    intro dl er d e h hlt
    simp only [downloadLoop, Except.ok.injEq, Prod.mk.injEq] at h
    obtain ⟨rfl, rfl⟩ := h
    omega
  | cons t rest ih =>
    intro dl er d e h hlt
    simp only [downloadLoop] at h
    split at h
    · split at h
      · exact Except.noConfusion h
      · exact ih _ _ _ _ h hlt
    · split at h
      · rename_i hq
        simp only [Except.ok.injEq, Prod.mk.injEq] at h
        obtain ⟨rfl, rfl⟩ := h
        have := dictInsert_length_le dl (exec t).idx ((exec t).videoPath.getD "")
        omega
      · rename_i hq
        push_neg at hq
        exact ih _ _ _ _ h hq

theorem downloadLoop_early (exec : Task → DLResult) (q : Nat) (skip : Bool) :
    ∀ (L post : List Task) (dl er d e : List (Nat × String)),
      downloadLoop exec q skip L dl er = Except.ok (d, e) → q ≤ d.length →
      dl.length < q →
      downloadLoop exec q skip (L ++ post) dl er = Except.ok (d, e) := by
  intro L
  induction L with
  | nil =>
    intro post dl er d e h hq hlt
    simp only [downloadLoop, Except.ok.injEq, Prod.mk.injEq] at h
    obtain ⟨rfl, rfl⟩ := h
    omega
  | cons t rest ih =>
    intro post dl er d e h hq hlt
    simp only [downloadLoop] at h ⊢
    split at h
    · rename_i he
      rw [if_pos he]
      split at h
      · exact Except.noConfusion h
      · rename_i hs
        rw [if_neg (by simpa using hs)]
        exact ih _ _ _ _ _ h hq hlt
    · rename_i he
      rw [if_neg he]
      split at h
      · rename_i hqd
        rw [if_pos hqd]
        exact h
      · rename_i hqd
        rw [if_neg hqd]
        push_neg at hqd
        exact ih _ _ _ _ _ h hq hqd

theorem downloadLoop_keys (exec : Task → DLResult) (q : Nat) (skip : Bool) :
    ∀ (L : List Task) (dl er d e : List (Nat × String)),
      downloadLoop exec q skip L dl er = Except.ok (d, e) →
      (∀ k, k ∈ keysOf d → k ∈ keysOf dl ∨
        ∃ t, t ∈ L ∧ (exec t).idx = k ∧ pyTruthy (exec t).err = false) ∧
      (∀ k, k ∈ keysOf e → k ∈ keysOf er ∨
        ∃ t, t ∈ L ∧ (exec t).idx = k ∧ pyTruthy (exec t).err = true) := by
  intro L
  induction L with
  | nil =>
    intro dl er d e h
    simp only [downloadLoop, Except.ok.injEq, Prod.mk.injEq] at h
    obtain ⟨rfl, rfl⟩ := h
    exact ⟨fun k hk => Or.inl hk, fun k hk => Or.inl hk⟩
  | cons t rest ih =>
    intro dl er d e h
    simp only [downloadLoop] at h
    split at h
    · rename_i he
      split at h
      · exact Except.noConfusion h
      · obtain ⟨hd, herr⟩ := ih _ _ _ _ h
        constructor
        · intro k hk
          rcases hd k hk with hmem | ⟨u, hu, hidx, hok⟩
          · exact Or.inl hmem
          · exact Or.inr ⟨u, List.mem_cons_of_mem t hu, hidx, hok⟩
        · intro k hk
          rcases herr k hk with hmem | ⟨u, hu, hidx, hfail⟩
          · rcases mem_keysOf_dictInsert.mp hmem with rfl | hold
            · exact Or.inr ⟨t, List.mem_cons_self t rest, rfl, he⟩
            · exact Or.inl hold
          · exact Or.inr ⟨u, List.mem_cons_of_mem t hu, hidx, hfail⟩
    · rename_i he
      have hsucc : pyTruthy (exec t).err = false := by
        revert he
        cases pyTruthy (exec t).err <;> simp
      split at h
      · simp only [Except.ok.injEq, Prod.mk.injEq] at h
        obtain ⟨rfl, rfl⟩ := h
        refine ⟨fun k hk => ?_, fun k hk => Or.inl hk⟩
        rcases mem_keysOf_dictInsert.mp hk with rfl | hold
        · exact Or.inr ⟨t, List.mem_cons_self t rest, rfl, hsucc⟩
        · exact Or.inl hold
      · obtain ⟨hd, herr⟩ := ih _ _ _ _ h
        constructor
        · intro k hk
          rcases hd k hk with hmem | ⟨u, hu, hidx, hok⟩
          · rcases mem_keysOf_dictInsert.mp hmem with rfl | hold
            · exact Or.inr ⟨t, List.mem_cons_self t rest, rfl, hsucc⟩
            · exact Or.inl hold
          · exact Or.inr ⟨u, List.mem_cons_of_mem t hu, hidx, hok⟩
        · intro k hk
          rcases herr k hk with hmem | ⟨u, hu, hidx, hfail⟩
          · exact Or.inl hmem
          · exact Or.inr ⟨u, List.mem_cons_of_mem t hu, hidx, hfail⟩

theorem downloadLoop_errors_mono (exec : Task → DLResult) (q : Nat) (skip : Bool) :
    ∀ (L : List Task) (dl er d e : List (Nat × String)),
      downloadLoop exec q skip L dl er = Except.ok (d, e) →
      ∀ k, k ∈ keysOf er → k ∈ keysOf e := by
  intro L
  induction L with
  | nil =>
    intro dl er d e h k hk
    simp only [downloadLoop, Except.ok.injEq, Prod.mk.injEq] at h
    obtain ⟨rfl, rfl⟩ := h
    exact hk
  | cons t rest ih =>
    intro dl er d e h k hk
    simp only [downloadLoop] at h
    split at h
    · split at h
      · exact Except.noConfusion h
      · exact ih _ _ _ _ h k (keysOf_subset_dictInsert _ _ _ hk)
    · split at h
      · simp only [Except.ok.injEq, Prod.mk.injEq] at h
        obtain ⟨rfl, rfl⟩ := h
        exact hk
      · exact ih _ _ _ _ h k hk

theorem downloadLoop_ok_of_skip (exec : Task → DLResult) (q : Nat) :
    ∀ (L : List Task) (dl er : List (Nat × String)),
      ∃ d e, downloadLoop exec q true L dl er = Except.ok (d, e) := by
  intro L
  induction L with
  | nil => intro dl er; exact ⟨dl, er, rfl⟩
  | cons t rest ih =>
    intro dl er
    simp only [downloadLoop]
    split
    · simpa using ih dl (dictInsert er (exec t).idx ((exec t).err.getD ""))
    · split
      · exact ⟨_, _, rfl⟩
      · exact ih _ _

/-! Lemmas for the two per-item failure policies. -/

theorem downloadLoop_intolerant (exec : Task → DLResult) (q : Nat) (t : Task)
    (post : List Task) (ht : pyTruthy (exec t).err = true) :
    ∀ (pre : List Task) (dl er : List (Nat × String)),
      (∀ p, p ∈ pre → pyTruthy (exec p).err = false) →
      dl.length + pre.length < q →
      downloadLoop exec q false (pre ++ t :: post) dl er =
        Except.error (failMsg (exec t)) := by
  intro pre
  induction pre with
  | nil =>
    intro dl er _ _
    simp [downloadLoop, ht]
  | cons p rest ih =>
    intro dl er hpre hq
    have hp : pyTruthy (exec p).err = false := hpre p (List.mem_cons_self p rest)
    have hlen := dictInsert_length_le dl (exec p).idx ((exec p).videoPath.getD "")
    simp only [List.cons_append, downloadLoop, hp, Bool.false_eq_true, if_false]
    rw [if_neg (by simp only [List.length_cons] at hq; omega)]
    exact ih _ _ (fun p2 hp2 => hpre p2 (List.mem_cons_of_mem p hp2))
      (by simp only [List.length_cons] at hq; omega)

theorem downloadLoop_tolerant (exec : Task → DLResult) (q : Nat) (t : Task)
    (post : List Task) (ht : pyTruthy (exec t).err = true) :
    ∀ (pre : List Task) (dl er : List (Nat × String)),
      (∀ p, p ∈ pre → pyTruthy (exec p).err = false) →
      dl.length + pre.length < q →
      ∃ d e, downloadLoop exec q true (pre ++ t :: post) dl er = Except.ok (d, e) ∧
        (exec t).idx ∈ keysOf e := by
  intro pre
  induction pre with
  | nil =>
    intro dl er _ _
    obtain ⟨d, e, hde⟩ := downloadLoop_ok_of_skip exec q post dl
      (dictInsert er (exec t).idx ((exec t).err.getD ""))
    refine ⟨d, e, ?_, ?_⟩
    · simp only [List.nil_append, downloadLoop, ht, if_true]
      simpa using hde
    · exact downloadLoop_errors_mono exec q true post _ _ _ _ hde _
        (mem_keysOf_dictInsert_self _ _ _)
  | cons p rest ih =>
    intro dl er hpre hq
    have hp : pyTruthy (exec p).err = false := hpre p (List.mem_cons_self p rest)
    have hlen := dictInsert_length_le dl (exec p).idx ((exec p).videoPath.getD "")
    obtain ⟨d, e, hde, hmem⟩ := ih (dictInsert dl (exec p).idx ((exec p).videoPath.getD "")) er
      (fun p2 hp2 => hpre p2 (List.mem_cons_of_mem p hp2))
      (by simp only [List.length_cons] at hq; omega)
    refine ⟨d, e, ?_, hmem⟩
    simp only [List.cons_append, downloadLoop, hp, Bool.false_eq_true, if_false]
    rw [if_neg (by simp only [List.length_cons] at hq; omega)]
    exact hde

/-- In tolerant mode a run that completes over `pre` without yet meeting the
quota continues into the remaining tasks from the accumulated maps: the loop
over `pre ++ rest` decomposes. (A result with fewer than `maxVideos` entries
can only come from falling off the end of `pre`, never from the early
return, whose result always holds at least `maxVideos` entries.) -/
theorem downloadLoop_concat (exec : Task → DLResult) (q : Nat) :
    ∀ (pre rest : List Task) (dl er dpre epre : List (Nat × String)),
      downloadLoop exec q true pre dl er = Except.ok (dpre, epre) →
      dpre.length < q →
      downloadLoop exec q true (pre ++ rest) dl er =
        downloadLoop exec q true rest dpre epre := by
  intro pre
  induction pre with
  | nil =>
    intro rest dl er dpre epre h hlt
    simp only [downloadLoop, Except.ok.injEq, Prod.mk.injEq] at h
    obtain ⟨rfl, rfl⟩ := h
    rfl
  | cons p pre ih =>
    intro rest dl er dpre epre h hlt
    simp only [downloadLoop, Bool.not_true, Bool.false_eq_true, if_false] at h
    simp only [List.cons_append, downloadLoop, Bool.not_true, Bool.false_eq_true,
      if_false]
    split at h
    · rename_i he
      rw [if_pos he]
      exact ih rest dl _ dpre epre h hlt
    · rename_i he
      rw [if_neg he]
      split at h
      · rename_i hq2
        simp only [Except.ok.injEq, Prod.mk.injEq] at h
        obtain ⟨rfl, rfl⟩ := h
        omega
      · rename_i hq2
        rw [if_neg hq2]
        exact ih rest _ er dpre epre h hlt

/-- In tolerant mode, EVERY failing task the run reaches is recorded: if the
run over the tasks before it completes with the quota still unmet, the
failing task's index is a key of the final errors map. -/
theorem downloadLoop_failure_recorded (exec : Task → DLResult) (q : Nat)
    (pre post : List Task) (t : Task) (dpre epre d e : List (Nat × String))
    (ht : pyTruthy (exec t).err = true)
    (hpre : downloadLoop exec q true pre [] [] = Except.ok (dpre, epre))
    (hlt : dpre.length < q)
    (hrun : downloadLoop exec q true (pre ++ t :: post) [] [] = Except.ok (d, e)) :
    (exec t).idx ∈ keysOf e := by
  rw [downloadLoop_concat exec q pre (t :: post) [] [] dpre epre hpre hlt] at hrun
  simp only [downloadLoop, ht, if_true, Bool.not_true, Bool.false_eq_true,
    if_false] at hrun
  exact downloadLoop_errors_mono exec q true post _ _ _ _ hrun _
    (mem_keysOf_dictInsert_self _ _ _)

/-! Lemmas about the 8-ary zip of the task builder. -/

theorem zipTasks_idx_sublist :
    ∀ (us : List String) (k : Nat) (ds vs : List (Option String)) (cs : List Clip)
      (es : List (Option String)) (t : String) (r : ResPolicy),
      ((zipTasks (List.range' k us.length) us ds vs cs (List.replicate us.length t) es
          (List.replicate us.length r)).map Task.idx).Sublist (List.range' k us.length) := by
  intro us
  induction us with
  | nil => intro k ds vs cs es t r; exact List.nil_sublist _
  | cons u us ih =>
    intro k ds vs cs es t r
    cases ds with
    | nil => exact List.nil_sublist _
    | cons d ds =>
      cases vs with
      | nil => exact List.nil_sublist _
      | cons v vs =>
        cases cs with
        | nil => exact List.nil_sublist _
        | cons c cs =>
          cases es with
          | nil => exact List.nil_sublist _
          | cons e es =>
            exact List.Sublist.cons₂ k (ih (k + 1) ds vs cs es t r)

theorem zipTasks_c9_spec :
    ∀ (us : List String) (k : Nat) (vs : List (Option String)) (d e : Option String)
      (t : String) (r : ResPolicy),
      (zipTasks (List.range' k us.length) us (List.replicate us.length d) vs
          (List.replicate us.length Option.none) (List.replicate us.length t)
          (List.replicate us.length e) (List.replicate us.length r)).length =
        min us.length vs.length ∧
      (zipTasks (List.range' k us.length) us (List.replicate us.length d) vs
          (List.replicate us.length Option.none) (List.replicate us.length t)
          (List.replicate us.length e) (List.replicate us.length r)).map Task.idx =
        List.range' k (min us.length vs.length) := by
  intro us
  induction us with
  | nil =>
    intro k vs d e t r
    constructor
    · show (0 : Nat) = min 0 vs.length
      simp
    · show ([] : List Nat) = List.range' k (min 0 vs.length)
      simp
  | cons u us ih =>
    intro k vs d e t r
    cases vs with
    | nil =>
      constructor
      · show (0 : Nat) = min (us.length + 1) 0
        simp
      · show ([] : List Nat) = List.range' k (min (us.length + 1) 0)
        simp
    | cons v vs =>
      obtain ⟨ihl, ihm⟩ := ih (k + 1) vs d e t r
      constructor
      · show (zipTasks (List.range' (k + 1) us.length) us (List.replicate us.length d) vs
            (List.replicate us.length Option.none) (List.replicate us.length t)
            (List.replicate us.length e) (List.replicate us.length r)).length + 1 =
          min (us.length + 1) (vs.length + 1)
        rw [ihl]
        omega
      · show k :: (zipTasks (List.range' (k + 1) us.length) us (List.replicate us.length d) vs
            (List.replicate us.length Option.none) (List.replicate us.length t)
            (List.replicate us.length e) (List.replicate us.length r)).map Task.idx =
          List.range' k (min (us.length + 1) (vs.length + 1))
        rw [ihm]
        have hm : min (us.length + 1) (vs.length + 1) = min us.length vs.length + 1 := by
          omega
        rw [hm, List.range'_succ]

/-- Any successful output of `_build_tasks_list` is the 8-ary zip of
`range(len(urls))`, the urls, four per-video lists, and the broadcast scratch
directory and resolution. -/
theorem buildTasksList_shape (urls : List String) (dd vp ex : Param (Option String))
    (cs : Option (List Clip)) (td res : String) (tasks : List Task)
    (hb : buildTasksList urls dd vp cs td ex res = Except.ok tasks) :
    ∃ (ds vs : List (Option String)) (cls : List Clip) (es : List (Option String))
      (r : ResPolicy),
      tasks = zipTasks (List.range urls.length) urls ds vs cls
        (List.replicate urls.length td) es (List.replicate urls.length r) := by
  unfold buildTasksList at hb
  split at hb
  · exact Except.noConfusion hb
  · cases hpr : parseResolution res with
    | error e => rw [hpr] at hb; exact Except.noConfusion hb
    | ok resPol =>
      rw [hpr] at hb
      simp only [Except.ok.injEq] at hb
      exact ⟨_, _, _, _, resPol, hb.symm⟩

/-- Invariants of one collection run whose task indexes are distinct and below
`n`: disjoint key sets, keys inside `range n`, and - once the quota was met
within an initial segment - no key from the unprocessed remainder. -/
theorem downloadRun_invariants (exec : Task → DLResult) (q : Nat) (skip : Bool)
    (L : List Task) (n : Nat)
    (hidx : ∀ t, (exec t).idx = t.idx)
    (hnodup : (L.map Task.idx).Nodup)
    (hbound : ∀ t2, t2 ∈ L → t2.idx < n)
    (d e : List (Nat × String))
    (hrun : downloadLoop exec q skip L [] [] = Except.ok (d, e)) :
    List.Disjoint (keysOf d) (keysOf e) ∧
    keysOf d ++ keysOf e ⊆ List.range n ∧
    (∀ pre post d0 e0, L = pre ++ post → 1 ≤ q →
      downloadLoop exec q skip pre [] [] = Except.ok (d0, e0) → q ≤ d0.length →
      ∀ t, t ∈ post → ¬ t.idx ∈ keysOf d ∧ ¬ t.idx ∈ keysOf e) := by
  obtain ⟨hdorig, heorig⟩ := downloadLoop_keys exec q skip L [] [] d e hrun
  have hdo : ∀ k, k ∈ keysOf d →
      ∃ t, t ∈ L ∧ (exec t).idx = k ∧ pyTruthy (exec t).err = false := by
    intro k hk
    rcases hdorig k hk with hmem | h
    · exact absurd hmem (List.not_mem_nil k)
    · exact h
  have heo : ∀ k, k ∈ keysOf e →
      ∃ t, t ∈ L ∧ (exec t).idx = k ∧ pyTruthy (exec t).err = true := by
    intro k hk
    rcases heorig k hk with hmem | h
    · exact absurd hmem (List.not_mem_nil k)
    · exact h
  refine ⟨?_, ?_, ?_⟩
  · intro a had hae
    obtain ⟨t1, ht1, hi1, hs1⟩ := hdo a had
    obtain ⟨t2, ht2, hi2, hf2⟩ := heo a hae
    have heq : t1 = t2 := by
      refine List.inj_on_of_nodup_map hnodup ht1 ht2 ?_
      rw [← hidx t1, ← hidx t2, hi1, hi2]
    rw [heq, hf2] at hs1
    exact Bool.noConfusion hs1
  · intro a ha
    rcases List.mem_append.mp ha with h | h
    · obtain ⟨t1, ht1, hi1, _⟩ := hdo a h
      have hta : t1.idx = a := (hidx t1).symm.trans hi1
      exact List.mem_range.mpr (hta ▸ hbound t1 ht1)
    · obtain ⟨t1, ht1, hi1, _⟩ := heo a h
      have hta : t1.idx = a := (hidx t1).symm.trans hi1
      exact List.mem_range.mpr (hta ▸ hbound t1 ht1)
  · intro pre post d0 e0 hsplit hq1 hrun0 hfull t htpost
    have heq := downloadLoop_early exec q skip pre post [] [] d0 e0 hrun0 hfull
      (by simpa using hq1)
    rw [hsplit] at hrun
    have hde : d0 = d ∧ e0 = e := by
      have := heq.symm.trans hrun
      simpa using this
    obtain ⟨rfl, rfl⟩ := hde
    obtain ⟨hdorig0, heorig0⟩ := downloadLoop_keys exec q skip pre [] [] d0 e0 hrun0
    have hnd := hnodup
    rw [hsplit, List.map_append] at hnd
    obtain ⟨-, -, hdisj⟩ := List.nodup_append.mp hnd
    constructor
    · intro hmem
      rcases hdorig0 _ hmem with hnil | ⟨t1, ht1, hi1, -⟩
      · exact List.not_mem_nil _ hnil
      · have hta : t1.idx = t.idx := (hidx t1).symm.trans hi1
        exact hdisj (hta ▸ List.mem_map_of_mem Task.idx ht1)
          (List.mem_map_of_mem Task.idx htpost)
    · intro hmem
      rcases heorig0 _ hmem with hnil | ⟨t1, ht1, hi1, -⟩
      · exact List.not_mem_nil _ hnil
      · have hta : t1.idx = t.idx := (hidx t1).symm.trans hi1
        exact hdisj (hta ▸ List.mem_map_of_mem Task.idx ht1)
          (List.mem_map_of_mem Task.idx htpost)

/-- The index list of a built task list is a sublist of `range(len(urls))`. -/
theorem buildTasksList_idx_sublist (urls : List String) (dd vp ex : Param (Option String))
    (cs : Option (List Clip)) (td res : String) (tasks : List Task)
    (hb : buildTasksList urls dd vp cs td ex res = Except.ok tasks) :
    (tasks.map Task.idx).Sublist (List.range' 0 urls.length) := by
  obtain ⟨ds, vs, cls, es, r, htasks⟩ :=
    buildTasksList_shape urls dd vp ex cs td res tasks hb
  rw [htasks, List.range_eq_range']
  exact zipTasks_idx_sublist urls 0 ds vs cls es td r

/-! The claims. -/

/-- C1: the degrading stream search cannot reach its later fallback
combinations. With the default desired extension ".mp4" and a provider whose
only stream is a progressive webm video, the two extension-constrained
attempts are empty, the loop sets `ext = None`, and the next filter call
evaluates `ext[1:]` on `None`, raising TypeError - instead of trying the
extension-free combinations and returning the available webm stream, or a
clean `none` after genuinely empty results. -/
theorem c1_get_stream_crashes_instead_of_degrading :
    getStream [webmStream] (PyExt.strE ".mp4") (ResPolicy.str "highest") =
      Except.error PyErr.typeError ∧
    [webmStream].filter (fun s => s.streamType == "video") ≠ [] :=
  ⟨rfl, by decide⟩

/-- C2: an extension mismatch does cause the item to fail. With the explicit
path "video.mov" and a provider offering only an mp4 stream, line 284 stores
the whole `os.path.splitext` tuple in `ext`, every stream filter then
mismatches, and the run ends in the TypeError of C1 - an error outcome, not a
rewritten path with a warning. Even when a stream IS selected (directory
download with matching ".mp4"), line 297 `root, ext =
os.path.splitext(video_path)[1]` unpacks the 4-character extension string
into two variables and raises ValueError, so the item still fails. -/
theorem c2_extension_mismatch_causes_failure :
    (doDownload (fun _ => some mp4Provider) taskMov).err =
      some "TypeError: \x27NoneType\x27 object is not subscriptable" ∧
    (doDownload (fun _ => some mp4Provider) taskMov).videoPath = Option.none ∧
    (doDownload (fun _ => some mp4Provider) taskDirMp4).err =
      some "ValueError: wrong number of values to unpack (expected 2)" ∧
    (doDownload (fun _ => some mp4Provider) taskDirMp4).videoPath = Option.none :=
  ⟨rfl, rfl, rfl, rfl⟩

/-- C3: in sequential mode, the moment the number of successes reaches the
quota (at least 1), `_download` returns immediately: the result over
`pre ++ post` equals the result over `pre` alone for EVERY continuation
`post` - so no later task is attempted - and the downloaded map holds exactly
`maxVideos` entries. -/
theorem c3_sequential_early_termination (exec : Task → DLResult) (q : Nat)
    (skip : Bool) (pre post : List Task) (d e : List (Nat × String))
    (hq : 1 ≤ q) (hrun : download exec pre q skip = Except.ok (d, e))
    (hfull : q ≤ d.length) :
    download exec (pre ++ post) q skip = Except.ok (d, e) ∧ d.length = q := by
  constructor
  · exact downloadLoop_early exec q skip pre post [] [] d e hrun hfull
      (by simpa using hq)
  · have := downloadLoop_bound exec q skip pre [] [] d e hrun (by simpa using hq)
    omega

/-- C3 witness: 10 tasks, quota 3, every item succeeds; the run over all ten
tasks equals the run over the first three - items 3..9, item 9 included, are
never attempted - and exactly 3 entries are downloaded. -/
theorem c3_witness_ten_tasks_quota_three :
    download execAllOk ([mkSimpleTask 0, mkSimpleTask 1, mkSimpleTask 2] ++
        [mkSimpleTask 3, mkSimpleTask 4, mkSimpleTask 5, mkSimpleTask 6,
         mkSimpleTask 7, mkSimpleTask 8, mkSimpleTask 9]) 3 true =
      Except.ok ([(0, "/v.mp4"), (1, "/v.mp4"), (2, "/v.mp4")], []) ∧
    ([((0 : Nat), "/v.mp4"), (1, "/v.mp4"), (2, "/v.mp4")] :
        List (Nat × String)).length = 3 :=
  c3_sequential_early_termination execAllOk 3 true
    [mkSimpleTask 0, mkSimpleTask 1, mkSimpleTask 2]
    [mkSimpleTask 3, mkSimpleTask 4, mkSimpleTask 5, mkSimpleTask 6,
     mkSimpleTask 7, mkSimpleTask 8, mkSimpleTask 9]
    [(0, "/v.mp4"), (1, "/v.mp4"), (2, "/v.mp4")] []
    (by decide) (by rfl) (by decide)

/-- C5: with `skip_failures` false, the first failing task encountered (after
successful predecessors that did not yet meet the quota) makes the run raise
the ValueError naming that url and error, in the sequential loop and in the
pooled loop alike, and no partial result maps are returned; with
`skip_failures` true, the run completes, and EVERY failing task the run
reaches (any decomposition `pre2 ++ t2 :: post2` whose initial segment
finishes below the quota) has its index recorded in the final errors map - so
runs with several failures record each of them, in both loops. -/
theorem c5_intolerant_raises_tolerant_records (exec : Task → DLResult) (q : Nat)
    (pre post : List Task) (t : Task)
    (hpre : ∀ p, p ∈ pre → pyTruthy (exec p).err = false)
    (hq : pre.length < q)
    (ht : pyTruthy (exec t).err = true) :
    download exec (pre ++ t :: post) q false = Except.error (failMsg (exec t)) ∧
    downloadMulti exec (pre ++ t :: post) q false =
      Except.error (failMsg (exec t)) ∧
    (∃ d e, download exec (pre ++ t :: post) q true = Except.ok (d, e) ∧
      (exec t).idx ∈ keysOf e) ∧
    (∀ (L pre2 post2 : List Task) (t2 : Task)
        (dpre epre d e : List (Nat × String)),
      L = pre2 ++ t2 :: post2 →
      pyTruthy (exec t2).err = true →
      download exec pre2 q true = Except.ok (dpre, epre) →
      dpre.length < q →
      download exec L q true = Except.ok (d, e) →
      (exec t2).idx ∈ keysOf e) ∧
    (∀ (L pre2 post2 : List Task) (t2 : Task)
        (dpre epre d e : List (Nat × String)),
      L = pre2 ++ t2 :: post2 →
      pyTruthy (exec t2).err = true →
      downloadMulti exec pre2 q true = Except.ok (dpre, epre) →
      dpre.length < q →
      downloadMulti exec L q true = Except.ok (d, e) →
      (exec t2).idx ∈ keysOf e) := by
  refine ⟨?_, ?_, ?_, ?_, ?_⟩
  · exact downloadLoop_intolerant exec q t post ht pre [] [] hpre (by simpa using hq)
  · exact downloadLoop_intolerant exec q t post ht pre [] [] hpre (by simpa using hq)
  · exact downloadLoop_tolerant exec q t post ht pre [] [] hpre (by simpa using hq)
  · intro L pre2 post2 t2 dpre epre d e hL ht2 hpre2 hlt hrun
    subst hL
    exact downloadLoop_failure_recorded exec q pre2 post2 t2 dpre epre d e ht2
      hpre2 hlt hrun
  · intro L pre2 post2 t2 dpre epre d e hL ht2 hpre2 hlt hrun
    subst hL
    exact downloadLoop_failure_recorded exec q pre2 post2 t2 dpre epre d e ht2
      hpre2 hlt hrun

/-- C5 witness: task 0 succeeds, task 1 fails, quota 5 and intolerant mode:
the run raises the composed failure message. And in a tolerant run over five
tasks where both index 1 and index 3 fail, the SECOND failure (index 3) is
recorded in the final errors map [(1, boom), (3, boom)] as well. -/
theorem c5_witness_first_failure_raises :
    download execFail1 ([mkSimpleTask 0] ++ mkSimpleTask 1 :: []) 5 false =
      Except.error (failMsg (execFail1 (mkSimpleTask 1))) ∧
    (execFail13 (mkSimpleTask 3)).idx ∈
      keysOf [((1 : Nat), "boom"), (3, "boom")] := by
  have h := c5_intolerant_raises_tolerant_records execFail1 5 [mkSimpleTask 0] []
    (mkSimpleTask 1) (by decide) (by decide) (by decide)
  refine ⟨h.1, ?_⟩
  have h2 := c5_intolerant_raises_tolerant_records execFail13 9 [mkSimpleTask 0] []
    (mkSimpleTask 1) (by decide) (by decide) (by decide)
  exact h2.2.2.2.1
    [mkSimpleTask 0, mkSimpleTask 1, mkSimpleTask 2, mkSimpleTask 3, mkSimpleTask 4]
    [mkSimpleTask 0, mkSimpleTask 1, mkSimpleTask 2] [mkSimpleTask 4]
    (mkSimpleTask 3)
    [(0, "/v.mp4"), (2, "/v.mp4")] [(1, "boom")]
    [(0, "/v.mp4"), (2, "/v.mp4"), (4, "/v.mp4")] [(1, "boom"), (3, "boom")]
    (by rfl) (by decide) (by rfl) (by decide) (by rfl)

/-- C6: the builder collapses a segment whose start is absent or nonpositive
and whose end is absent to "no clipping": `(0, None)`, `(None, None)` and
`None` give identical built tasks (shown on the builder itself), any
`(s, None)` with `s <= 0` is collapsed, and `(5.0, None)` is preserved as an
open-ended clip. -/
theorem c6_clip_segment_normalization :
    normalizeClip (some (some 0, Option.none)) = Option.none ∧
    normalizeClip (some (Option.none, Option.none)) = Option.none ∧
    normalizeClip Option.none = Option.none ∧
    normalizeClip (some (some 5, Option.none)) = some (some 5, Option.none) ∧
    (∀ s : Rat, s ≤ 0 → normalizeClip (some (some s, Option.none)) = Option.none) ∧
    buildTasksList ["u"] (Param.one (some "/d")) (Param.one Option.none)
        (some [some (some 0, Option.none)]) "/t" (Param.one Option.none) "highest" =
      buildTasksList ["u"] (Param.one (some "/d")) (Param.one Option.none)
        (some [Option.none]) "/t" (Param.one Option.none) "highest" ∧
    buildTasksList ["u"] (Param.one (some "/d")) (Param.one Option.none)
        (some [some (some 0, Option.none)]) "/t" (Param.one Option.none) "highest" =
      buildTasksList ["u"] (Param.one (some "/d")) (Param.one Option.none)
        Option.none "/t" (Param.one Option.none) "highest" ∧
    buildTasksList ["u"] (Param.one (some "/d")) (Param.one Option.none)
        (some [some (some 5, Option.none)]) "/t" (Param.one Option.none) "highest" ≠
      buildTasksList ["u"] (Param.one (some "/d")) (Param.one Option.none)
        Option.none "/t" (Param.one Option.none) "highest" := by
  refine ⟨by decide, rfl, rfl, by decide, ?_, by decide, by decide, by decide⟩
  intro s hs
  simp [normalizeClip, startsWhole, hs]

/-- C8 counterexample: on Windows (`os.name == "nt"`) with process workers
required (`use_threads` false), an explicitly requested worker count of 4 is
returned unchanged - the claimed collapse to 1 does not happen. -/
theorem c8_counterexample_explicit_workers_kept :
    parseNumWorkers (some 4) false "nt" 8 ≠ 1 ∧
    parseNumWorkers (some 4) false "nt" 8 = 4 :=
  ⟨by decide, rfl⟩

/-- C8 amended: the collapse to one worker on Windows with process workers
applies only when the caller did not specify `num_workers` (the
`cpu_count()` default path); an explicitly requested count is always honored
unchanged, and the threaded default on Windows keeps `cpu_count()`. -/
theorem c8_amended_collapse_only_for_default :
    parseNumWorkers Option.none false "nt" 8 = 1 ∧
    parseNumWorkers Option.none true "nt" 8 = 8 ∧
    (∀ (n : Nat) (u : Bool) (os : String) (c : Nat),
      parseNumWorkers (some n) u os c = n) :=
  ⟨rfl, rfl, fun _ _ _ _ => rfl⟩

/-- C10 counterexample: with an explicit `max_videos = 0` and one succeeding
url, the full pipeline returns a downloaded map with one entry - more than
the quota - because the quota check only runs after a success is recorded. -/
theorem c10_counterexample_quota_zero_exceeded :
    downloadYoutubeVideos execAllOk id "posix" 8 "/t" ["u"]
      (Param.one (some "/d")) (Param.one Option.none) Option.none
      (Param.one Option.none) "highest" (some 0) (some 1) true =
      Except.ok ([(0, "/v.mp4")], []) ∧
    ¬ (([((0 : Nat), "/v.mp4")] : List (Nat × String)).length ≤ 0) :=
  ⟨rfl, by decide⟩

/-- C10 amended: whenever the effective quota `max_videos` (defaulting to
`len(urls)` when absent) is at least 1, the downloaded map of a successful
run never exceeds it, in the sequential branch and in the pooled branch
alike; only the degenerate explicit quota 0 can be exceeded, by exactly one
entry. -/
theorem c10_amended_downloaded_at_most_quota (exec : Task → DLResult)
    (completionOrder : List Task → List Task) (osName : String) (cpuCount : Nat)
    (tmpDir : String) (urls : List String)
    (downloadDir videoPaths : Param (Option String))
    (clipSegments : Option (List Clip)) (ext : Param (Option String))
    (resolution : String) (maxVideos : Option Nat) (numWorkers : Option Nat)
    (skipFailures : Bool) (d e : List (Nat × String))
    (hq : 1 ≤ maxVideos.getD urls.length)
    (h : downloadYoutubeVideos exec completionOrder osName cpuCount tmpDir urls
        downloadDir videoPaths clipSegments ext resolution maxVideos numWorkers
        skipFailures = Except.ok (d, e)) :
    d.length ≤ maxVideos.getD urls.length := by
  simp only [downloadYoutubeVideos] at h
  split at h
  · exact Except.noConfusion h
  · split at h
    · exact downloadLoop_bound exec (maxVideos.getD urls.length) skipFailures
        _ [] [] d e h (by simpa using hq)
    · exact downloadLoop_bound exec (maxVideos.getD urls.length) skipFailures
        _ [] [] d e h (by simpa using hq)

/-- C10 amended witness: two urls, quota 1, everything succeeds: one entry is
downloaded, within the quota. -/
theorem c10_amended_witness_quota_one :
    ([((0 : Nat), "/v.mp4")] : List (Nat × String)).length ≤
      (some 1 : Option Nat).getD (["a", "b"] : List String).length :=
  c10_amended_downloaded_at_most_quota execAllOk id "posix" 8 "/t" ["a", "b"]
    (Param.one (some "/d")) (Param.one Option.none) Option.none
    (Param.one Option.none) "highest" (some 1) (some 1) true
    [(0, "/v.mp4")] [] (by decide) (by rfl)

/-- Specification of `_find_nearest`: a valid index, minimal absolute
difference, and strictly smaller difference than every earlier index (first
occurrence wins ties, as `np.argmin` returns the first minimum). -/
theorem findNearest_spec (rs : List Int) (t : Int) (h : rs ≠ []) :
    findNearest rs t < rs.length ∧
    (∀ i, i < rs.length →
      (rs.getD (findNearest rs t) 0 - t).natAbs ≤ (rs.getD i 0 - t).natAbs) ∧
    (∀ i, i < findNearest rs t →
      (rs.getD (findNearest rs t) 0 - t).natAbs < (rs.getD i 0 - t).natAbs) := by
  have hlne : rs.map (fun x => (x - t).natAbs) ≠ [] := by
    cases rs with
    | nil => exact absurd rfl h
    | cons a l => simp
  have hlen : (rs.map (fun x => (x - t).natAbs)).length = rs.length := by simp
  have hA : argminList (rs.map (fun x => (x - t).natAbs)) < rs.length := by
    have := argminList_lt_length _ hlne
    rwa [hlen] at this
  refine ⟨hA, ?_, ?_⟩
  · intro i hi
    have hmin := argminList_min (rs.map (fun x => (x - t).natAbs)) i (by rwa [hlen])
    rwa [getD_map_natAbs _ rs _ hA, getD_map_natAbs _ rs i hi] at hmin
  · intro i hi
    have hfirst := argminList_first (rs.map (fun x => (x - t).natAbs)) i hi
    have hi2 : i < rs.length := lt_trans hi hA
    rwa [getD_map_natAbs _ rs _ hA, getD_map_natAbs _ rs i hi2] at hfirst

/-- C7: with an integer resolution target and a non-empty surviving candidate
set, `_get_stream` indexes the candidates by `_find_nearest`, which picks a
candidate of minimal absolute difference from the target and, among equally
close candidates, the one listed first in the provider's order. -/
theorem c7_nearest_resolution_first_tiebreak (ss : List YTStream) (t : Int)
    (h : ss ≠ []) :
    findNearest (ss.map (fun s => (s.resolution : Int))) t < ss.length ∧
    pickStream ss (ResPolicy.num t) =
      ss.get? (findNearest (ss.map (fun s => (s.resolution : Int))) t) ∧
    (∀ i, i < ss.length →
      ((ss.map (fun s => (s.resolution : Int))).getD
          (findNearest (ss.map (fun s => (s.resolution : Int))) t) 0 - t).natAbs ≤
        ((ss.map (fun s => (s.resolution : Int))).getD i 0 - t).natAbs) ∧
    (∀ i, i < findNearest (ss.map (fun s => (s.resolution : Int))) t →
      ((ss.map (fun s => (s.resolution : Int))).getD
          (findNearest (ss.map (fun s => (s.resolution : Int))) t) 0 - t).natAbs <
        ((ss.map (fun s => (s.resolution : Int))).getD i 0 - t).natAbs) := by
  have hrs : ss.map (fun s => (s.resolution : Int)) ≠ [] := by
    cases ss with
    | nil => exact absurd rfl h
    | cons a l => simp
  obtain ⟨h1, h2, h3⟩ := findNearest_spec (ss.map (fun s => (s.resolution : Int))) t hrs
  have hlen : (ss.map (fun s => (s.resolution : Int))).length = ss.length := by simp
  refine ⟨by rw [← hlen]; exact h1, rfl, ?_, h3⟩
  intro i hi
  exact h2 i (by rw [hlen]; exact hi)

/-- C7 witness: candidates of resolutions 480, 720 and 1080 with target 900:
720 and 1080 are equally close (180 away), and the first-listed 720 is
selected. -/
theorem c7_witness_target_900_selects_720 :
    pickStream [mkStreamRes 480, mkStreamRes 720, mkStreamRes 1080]
      (ResPolicy.num 900) = some (mkStreamRes 720) := by
  have h := c7_nearest_resolution_first_tiebreak
    [mkStreamRes 480, mkStreamRes 720, mkStreamRes 1080] 900 (by simp)
  exact h.2.1.trans (by rfl)

/-- With a url list, a scalar download directory, a LIST of video paths, no
clip segments, a scalar extension and resolution "highest", the builder
succeeds and produces exactly the truncating 8-ary zip. -/
theorem buildTasksList_many_paths_eq (urls : List String) (od oe : Option String)
    (l : List (Option String)) (td : String) :
    buildTasksList urls (Param.one od) (Param.many l) Option.none td
        (Param.one oe) "highest" =
      Except.ok (zipTasks (List.range urls.length) urls
        (List.replicate urls.length od) l (List.replicate urls.length Option.none)
        (List.replicate urls.length td) (List.replicate urls.length Option.none)
        (List.replicate urls.length (ResPolicy.str "highest"))) := by
  cases oe with
  | none => rfl
  | some s => rfl

/-- C9: a `video_paths` sequence shorter than `urls` does not fail task
construction: the zip truncates the task list to the shorter length, and an
index past that length is attempted by no run and appears in neither result
map. -/
theorem c9_shorter_sequence_truncates (urls : List String) (od oe : Option String)
    (l : List (Option String)) (td : String) (tasks : List Task)
    (hb : buildTasksList urls (Param.one od) (Param.many l) Option.none td
        (Param.one oe) "highest" = Except.ok tasks) :
    tasks.length = min urls.length l.length ∧
    (∀ (exec : Task → DLResult) (q : Nat) (skip : Bool) (d e : List (Nat × String)),
      (∀ t2, (exec t2).idx = t2.idx) →
      download exec tasks q skip = Except.ok (d, e) →
      ∀ k, min urls.length l.length ≤ k → ¬ k ∈ keysOf d ∧ ¬ k ∈ keysOf e) := by
  rw [buildTasksList_many_paths_eq urls od oe l td] at hb
  simp only [Except.ok.injEq] at hb
  subst hb
  obtain ⟨hlen, hmap⟩ := zipTasks_c9_spec urls 0 l od Option.none td
    (ResPolicy.str "highest")
  constructor
  · rw [List.range_eq_range']
    exact hlen
  · intro exec q skip d e hidx hrun k hk
    obtain ⟨hdorig, heorig⟩ := downloadLoop_keys exec q skip _ [] [] d e hrun
    constructor
    · intro hmem
      rcases hdorig k hmem with hnil | ⟨t2, ht2, hi2, -⟩
      · exact List.not_mem_nil k hnil
      · have hki : t2.idx = k := (hidx t2).symm.trans hi2
        have hmm := List.mem_map_of_mem Task.idx ht2
        rw [List.range_eq_range', hmap] at hmm
        have := List.mem_range'_1.mp hmm
        omega
    · intro hmem
      rcases heorig k hmem with hnil | ⟨t2, ht2, hi2, -⟩
      · exact List.not_mem_nil k hnil
      · have hki : t2.idx = k := (hidx t2).symm.trans hi2
        have hmm := List.mem_map_of_mem Task.idx ht2
        rw [List.range_eq_range', hmap] at hmm
        have := List.mem_range'_1.mp hmm
        omega

/-- C9 witness: three urls but a single video path: one task is built
(min 3 1 = 1), and after a run downloading it, the trailing index 2 is in
neither map. -/
theorem c9_witness_trailing_urls_untouched :
    ([c9Task] : List Task).length = min 3 1 ∧
    (¬ (2 : Nat) ∈ keysOf [((0 : Nat), "/v.mp4")] ∧
      ¬ (2 : Nat) ∈ keysOf ([] : List (Nat × String))) := by
  have h := c9_shorter_sequence_truncates ["a", "b", "c"] (some "/d") Option.none
    [some "/p0.mp4"] "/t" [c9Task] (by rfl)
  exact ⟨h.1, h.2 execAllOk 3 true [(0, "/v.mp4")] [] (fun t2 => rfl) (by rfl) 2
    (by decide)⟩

/-- C4: for a run over a built task list - sequentially, and in the pool
under any completion order - the downloaded and errors maps have disjoint key
sets, every key lies in `range(len(urls))`, and once the quota is met within
an initial segment, an index of the unprocessed remainder appears in neither
map. -/
theorem c4_result_maps_invariants (urls : List String)
    (dd vp ex : Param (Option String)) (cs : Option (List Clip)) (td res : String)
    (tasks order : List Task) (exec : Task → DLResult) (q : Nat) (skip : Bool)
    (ds es dm em : List (Nat × String))
    (hb : buildTasksList urls dd vp cs td ex res = Except.ok tasks)
    (hidx : ∀ t, (exec t).idx = t.idx)
    (hperm : order.Perm tasks)
    (hseq : download exec tasks q skip = Except.ok (ds, es))
    (hmul : downloadMulti exec order q skip = Except.ok (dm, em)) :
    List.Disjoint (keysOf ds) (keysOf es) ∧
    keysOf ds ++ keysOf es ⊆ List.range urls.length ∧
    List.Disjoint (keysOf dm) (keysOf em) ∧
    keysOf dm ++ keysOf em ⊆ List.range urls.length ∧
    (∀ pre post d0 e0, tasks = pre ++ post → 1 ≤ q →
      download exec pre q skip = Except.ok (d0, e0) → q ≤ d0.length →
      ∀ t, t ∈ post → ¬ t.idx ∈ keysOf ds ∧ ¬ t.idx ∈ keysOf es) ∧
    (∀ pre post d0 e0, order = pre ++ post → 1 ≤ q →
      downloadMulti exec pre q skip = Except.ok (d0, e0) → q ≤ d0.length →
      ∀ t, t ∈ post → ¬ t.idx ∈ keysOf dm ∧ ¬ t.idx ∈ keysOf em) := by
  have hsub := buildTasksList_idx_sublist urls dd vp ex cs td res tasks hb
  have hnodup : (tasks.map Task.idx).Nodup :=
    hsub.nodup (List.nodup_range' 0 urls.length)
  have hbound : ∀ t2, t2 ∈ tasks → t2.idx < urls.length := by
    intro t2 h2
    have hmem := hsub.subset (List.mem_map_of_mem Task.idx h2)
    have := List.mem_range'_1.mp hmem
    omega
  have hnodupO : (order.map Task.idx).Nodup :=
    ((hperm.map Task.idx).symm).nodup hnodup
  have hboundO : ∀ t2, t2 ∈ order → t2.idx < urls.length :=
    fun t2 h2 => hbound t2 (hperm.mem_iff.mp h2)
  obtain ⟨hd1, hd2, hd3⟩ := downloadRun_invariants exec q skip tasks urls.length
    hidx hnodup hbound ds es hseq
  obtain ⟨hm1, hm2, hm3⟩ := downloadRun_invariants exec q skip order urls.length
    hidx hnodupO hboundO dm em hmul
  exact ⟨hd1, hd2, hm1, hm2, hd3, hm3⟩

/-- C4 witness: two built tasks run sequentially and in reversed completion
order, everything succeeding: the concrete downloaded and errors key sets are
disjoint. -/
theorem c4_witness_disjoint_maps :
    List.Disjoint (keysOf [((0 : Nat), "/v.mp4"), (1, "/v.mp4")])
      (keysOf ([] : List (Nat × String))) := by
  have h := c4_result_maps_invariants ["a", "b"] (Param.one (some "/d"))
    (Param.one Option.none) (Param.one Option.none) Option.none "/t" "highest"
    [c4TaskA, c4TaskB] [c4TaskB, c4TaskA] execAllOk 2 true
    [(0, "/v.mp4"), (1, "/v.mp4")] [] [(1, "/v.mp4"), (0, "/v.mp4")] []
    (by rfl) (fun t2 => rfl) (by decide) (by rfl) (by rfl)
  exact h.1

end YT
